import Mathlib

/-!
Shallow embedding of the MongoDB SCIM connector plugin
(`lib/plugin-mongodb-new-connector2.js`): the endpoint-side documents, the
attribute mapper's outbound path, the membership-edit loop and the eight
resource operations, together with proofs of the stated properties.

Store round-trips are modelled sequentially (one suspend-resume chain per
operation, as the design document's concurrency section prescribes);
fallible operations return `Except String`, carrying the exact message the
plugin throws. JavaScript array aliasing in `modifyGroup` (where
`newMembers` initially *is* the `selectedGroup.members` array object) is
made explicit in `EditState`.
-/

namespace Scim

/-- Endpoint-side user document. Only the fields the verified properties
inspect (`id`, and `username`, the field the user map binds to SCIM
`userName`) are carried. -/
structure UserRec where
  id : String
  username : String
deriving DecidableEq

/-- Endpoint-side group document: `id`, `name` (the endpoint field the
group map binds to SCIM `displayName`), and the denormalized `members`
list of user ids. -/
structure GroupRec where
  id : String
  name : String
  members : List String
deriving DecidableEq

/-- The document store: the `users` and `groups` collections. -/
structure Store where
  users : List UserRec
  groups : List GroupRec
deriving DecidableEq

/-- Modelled from the spec: the Attribute Mapper's outbound
(external-to-internal) path, `endpointMapper("outbound", obj, rules)` of
`lib/scimgateway.js`, which is outside the sources under verification. A
rule set is a list of `(internalName, externalName)` pairs; for each rule
whose external name is present in the input object, the internal name is
bound to the input's value. All values the verified paths feed it are
strings. -/
def endpointMapperOutbound (rules : List (String × String)) (obj : List (String × String)) : List (String × String) :=
  rules.filterMap (fun r => (obj.lookup r.2).map (fun v => (r.1, v)))

/-- `config.map.user` from `config/plugin-mongodb-new-connector2.json`,
as `(internal field, SCIM attribute)` pairs. -/
def configMapUser : List (String × String) :=
  [("id", "id"), ("_id", "id"), ("username", "userName"),
   ("active", "active"), ("password", "password"),
   ("givenName", "name.givenName"), ("familyName", "name.familyName"),
   ("displayName", "name.formatted"), ("email", "attributes.email.value"),
   ("homePhone", "phoneNumbers.home.value"),
   ("postalCode", "addresses.work.postalCode"),
   ("streetAddress", "addresses.work.streetAddress"),
   ("telephoneNumber", "attributes.telephoneNumber.value")]

/-- `config.map.group` from the plugin's configuration file. -/
def configMapGroup : List (String × String) :=
  [("id", "id"), ("_id", "id"), ("name", "displayName")]

/-- Value of an endpoint user field named by a `where`-predicate key. -/
def UserRec.field (u : UserRec) : String → Option String
  | "id" => some u.id
  | "_id" => some u.id
  | "username" => some u.username
  | _ => none

/-- Value of an endpoint group field named by a `where`-predicate key. -/
def GroupRec.field (g : GroupRec) : String → Option String
  | "id" => some g.id
  | "_id" => some g.id
  | "name" => some g.name
  | _ => none

/-- A user document satisfies an equality `where` predicate. -/
def UserRec.matchesWhere (u : UserRec) (flt : List (String × String)) : Bool :=
  flt.all (fun kv => u.field kv.1 == some kv.2)

/-- A group document satisfies an equality `where` predicate. -/
def GroupRec.matchesWhere (g : GroupRec) (flt : List (String × String)) : Bool :=
  flt.all (fun kv => g.field kv.1 == some kv.2)

/-- `findFirst` / `findUnique` over the users collection. -/
def findFirstUser (users : List UserRec) (flt : List (String × String)) : Option UserRec :=
  users.find? (fun u => u.matchesWhere flt)

/-- `findFirst` / `findUnique` over the groups collection. -/
def findFirstGroup (groups : List GroupRec) (flt : List (String × String)) : Option GroupRec :=
  groups.find? (fun g => g.matchesWhere flt)

/-- The user-unique `where` predicate the plugin builds: the outbound
mapping of `{ userName: v }` through `config.map.user`. -/
def userUniqueFilter (v : String) : List (String × String) :=
  endpointMapperOutbound configMapUser [("userName", v)]

/-- The group-unique `where` predicate the plugin builds: the outbound
mapping of `{ id: v }` through `config.map.group`. -/
def groupUniqueFilter (v : String) : List (String × String) :=
  endpointMapperOutbound configMapGroup [("id", v)]

/-- A membership edit from `attrObj.members`: `value` is a userName and
`operation` the tag; any operation other than `"delete"` adds. -/
structure MemberEdit where
  value : String
  operation : String
deriving DecidableEq

/-- State of `modifyGroup`'s member-edit loop. `sel` is the
`selectedGroup.members` array object, `cur` the `newMembers` variable.
Initially `newMembers = selectedGroup.members` binds the same array, so
`aliased` starts true: while it holds, a push into `cur` also mutates
`sel`. A delete edit rebinds `newMembers` to a fresh
`selectedGroup.members.filter(...)` array, ending the aliasing. -/
structure EditState where
  sel : List String
  cur : List String
  aliased : Bool
deriving DecidableEq

/-- One iteration of the member-edit loop of `modifyGroup`: resolve the
edit's `value` (a userName) to a user via the outbound-mapped filter and
`findFirst` (failing when no user matches); on `"delete"`, rebind the
working list to `selectedGroup.members` filtered by inequality with the
resolved id; otherwise push the id unless the working list already
contains it (pushing through the alias while it lasts). -/
def stepEdit (users : List UserRec) (st : EditState) (e : MemberEdit) : Option EditState :=
  match findFirstUser users (userUniqueFilter e.value) with
  | none => none
  | some u =>
    if e.operation = "delete" then
      some ⟨st.sel, st.sel.filter (fun item => item != u.id), false⟩
    else if st.cur.contains u.id then
      some st
    else if st.aliased then
      some ⟨st.sel ++ [u.id], st.cur ++ [u.id], true⟩
    else
      some ⟨st.sel, st.cur ++ [u.id], false⟩

/-- The member-edit loop of `modifyGroup` as the code runs it: fold
`stepEdit` over the edits in input order, starting from the aliased pair
of lists, and return the final `newMembers`. `none` signals the thrown
user-not-found error. -/
def applyMembershipEdits (users : List UserRec) (members : List String) (edits : List MemberEdit) : Option (List String) :=
  (edits.foldlM (stepEdit users) ⟨members, members, true⟩).map EditState.cur

/-- One fold step of the membership-edit semantics as the specification
words it: delete removes the resolved id from the *working* list (no-op
if absent); any other edit appends it only if not already present. -/
def specStepEdit (users : List UserRec) (l : List String) (e : MemberEdit) : Option (List String) :=
  match findFirstUser users (userUniqueFilter e.value) with
  | none => none
  | some u =>
    if e.operation = "delete" then
      some (l.filter (fun item => item != u.id))
    else if l.contains u.id then
      some l
    else
      some (l ++ [u.id])

/-- The specification's membership-edit semantics: fold the edits in
input order over the group's current member list. -/
def specApplyMembershipEdits (users : List UserRec) (members : List String) (edits : List MemberEdit) : Option (List String) :=
  edits.foldlM (specStepEdit users) members

/-- The `getObj` shapes the gateway hands to `getUsers` / `getGroups`:
a simple `{ attribute, operator, value }` filter (`rawFilter` is also set
then), a raw filter alone, or no filter at all. -/
inductive GetObj where
  | filt (attr : String) (operator : String) (value : String) (rawFilter : String)
  | raw (rawFilter : String)
  | noFilter
deriving DecidableEq

/-- The mandatory if-else logic of `getUsers`: equality on `id`,
`userName` or `externalId` builds the outbound-mapped `{ userName: value }`
predicate; every other operator, the `group.value` shape and raw filters
throw; no filter at all selects everything. -/
def getUsersFilter : GetObj → Except String (List (String × String))
  | .filt attr operator value rawFilter =>
    if operator = "eq" ∧ attr ∈ ["id", "userName", "externalId"] then
      Except.ok (endpointMapperOutbound configMapUser [("userName", value)])
    else if operator = "eq" ∧ attr = "group.value" then
      Except.error ("getUsers error: not supporting groups member of user filtering: " ++ rawFilter)
    else
      Except.error ("getUsers error: not supporting simpel filtering: " ++ rawFilter)
  | .raw rawFilter =>
    Except.error ("getUsers not error: supporting advanced filtering: " ++ rawFilter)
  | .noFilter => Except.ok []

/-- The mandatory if-else logic of `getGroups`: equality on `id`,
`displayName` or `externalId` builds the outbound-mapped `{ id: value }`
predicate and is the only branch that assigns `filter`; the
`members.value` branch, the simple-filter branch, the raw-filter branch
and the no-filter branch are all empty, leaving `filter` undefined
(`none`), which the store treats as an unrestricted query. -/
def getGroupsFilter : GetObj → Option (List (String × String))
  | .filt attr operator value _ =>
    if operator = "eq" ∧ attr ∈ ["id", "displayName", "externalId"] then
      some (endpointMapperOutbound configMapGroup [("id", value)])
    else
      none
  | .raw _ => none
  | .noFilter => none

/-- A SCIM user resource as `getUsers` returns it: the inbound-mapped
fields the claims inspect, plus the attached `groups` list of
`(value, display)` pairs. -/
structure ScimUser where
  id : String
  userName : String
  groups : List (String × String)
deriving DecidableEq

/-- A SCIM group resource as `getGroups` returns it, with the attached
`members` list of `(value, display)` pairs. -/
structure ScimGroup where
  id : String
  displayName : String
  members : List (String × String)
deriving DecidableEq

/-- The membership query `getUsers` issues for one user (and `deleteUser`
for its prune): every group whose `members` has the given internal id. -/
def listGroupsFor (groups : List GroupRec) (uid : String) : List GroupRec :=
  groups.filter (fun g => g.members.contains uid)

/-- The body of `getUsers`' row loop: inbound-map the row (`id` from the
document id, `userName` from `username`), query the groups whose
`members` contain the pre-overwrite `scimUser.id`, then overwrite
`scimUser.id` with `scimUser.userName` before pushing the resource. -/
def getUsersRow (groups : List GroupRec) (row : UserRec) : ScimUser :=
  let groupsList := (listGroupsFor groups row.id).map (fun g => (g.id, g.name))
  { id := row.username, userName := row.username, groups := groupsList }

/-- `getUsers`: translate the filter (throwing on the unsupported
shapes), query the users collection, and map each row through the row
loop. -/
def getUsers (store : Store) (getObj : GetObj) : Except String (List ScimUser) := do
  let flt ← getUsersFilter getObj
  let rows := store.users.filter (fun u => u.matchesWhere flt)
  pure (rows.map (getUsersRow store.groups))

/-- The body of `getGroups`' row loop: inbound-map the group, query the
users whose `id` is in the row's `members`, and attach each as a
`{ value, display }` pair built from the inbound-mapped `id` and
`userName`. -/
def getGroupsRow (users : List UserRec) (row : GroupRec) : ScimGroup :=
  let memberUsers := users.filter (fun u => row.members.contains u.id)
  { id := row.id, displayName := row.name,
    members := memberUsers.map (fun u => (u.id, u.username)) }

/-- `getGroups`: compute the (possibly undefined) filter, query the
groups collection — `none` querying unrestricted — and map each row
through the row loop. No filter shape makes `getGroups` throw. -/
def getGroups (store : Store) (getObj : GetObj) : Except String (List ScimGroup) :=
  let rows : List GroupRec := match getGroupsFilter getObj with
    | some flt => store.groups.filter (fun g => g.matchesWhere flt)
    | none => store.groups
  Except.ok (rows.map (getGroupsRow store.users))

/-- Write one outbound-mapped key into a user document (the collection's
underlying fields beyond those the claims inspect are dropped). -/
def UserRec.setField (u : UserRec) (k v : String) : UserRec :=
  if k = "id" ∨ k = "_id" then { u with id := v }
  else if k = "username" then { u with username := v }
  else u

/-- Apply an outbound-mapped data object to a user document. -/
def UserRec.applyData (u : UserRec) (data : List (String × String)) : UserRec :=
  data.foldl (fun u kv => u.setField kv.1 kv.2) u

/-- `createUser`: outbound-map the SCIM object and insert it; the groups
collection is untouched. -/
def createUser (store : Store) (userObj : List (String × String)) : Except String Store :=
  let newUser := endpointMapperOutbound configMapUser userObj
  Except.ok { store with users := store.users ++ [UserRec.applyData ⟨"", ""⟩ newUser] }

/-- `modifyUser`: look the user up by the outbound-mapped
`{ userName: id }` predicate, throw `User <id> not found` when absent,
otherwise update the matching document with the outbound-mapped
attribute set. -/
def modifyUser (store : Store) (id : String) (attrObj : List (String × String)) : Except String Store :=
  let updatedUser := endpointMapperOutbound configMapUser attrObj
  match findFirstUser store.users (userUniqueFilter id) with
  | none => Except.error ("User " ++ id ++ " not found")
  | some _ =>
    Except.ok { store with users := store.users.map (fun u =>
      if u.matchesWhere (userUniqueFilter id) then u.applyData updatedUser else u) }

/-- The group update `deleteUser` issues for one group returned by its
membership query: replace `members` with `members` filtered by
inequality with the deleted user's internal id (groups the query does
not return are untouched, which the guard models). -/
def pruneGroup (uid : String) (g : GroupRec) : GroupRec :=
  if g.members.contains uid then
    { g with members := g.members.filter (fun item => item != uid) }
  else g

/-- `deleteUser`: resolve the user by the outbound-mapped
`{ userName: id }` predicate (throwing `User <id> not found` when
absent), prune its internal id from the `members` of every group the
membership query returns, then delete the user document. -/
def deleteUser (store : Store) (id : String) : Except String Store :=
  match findFirstUser store.users (userUniqueFilter id) with
  | none => Except.error ("User " ++ id ++ " not found")
  | some user =>
    Except.ok { users := store.users.filter (fun u => !u.matchesWhere (userUniqueFilter id)),
                groups := store.groups.map (pruneGroup user.id) }

/-- The second-stage error normalization of `deleteUser`'s store call:
code `P2025` (record already absent) becomes `User <id> not found`, any
other store error is re-thrown with its own message. -/
def normalizeDeleteUserError (id code msg : String) : String :=
  if code = "P2025" then "User " ++ id ++ " not found" else msg

/-- The second-stage error normalization of `deleteGroup`'s store call:
code `P2025` becomes `Group <id> not found`. -/
def normalizeDeleteGroupError (id code msg : String) : String :=
  if code = "P2025" then "Group " ++ id ++ " not found" else msg

/-- Write one outbound-mapped key into a group document. -/
def GroupRec.setField (g : GroupRec) (k v : String) : GroupRec :=
  if k = "id" ∨ k = "_id" then { g with id := v }
  else if k = "name" then { g with name := v }
  else g

/-- Apply an outbound-mapped data object to a group document. -/
def GroupRec.applyData (g : GroupRec) (data : List (String × String)) : GroupRec :=
  data.foldl (fun (g : GroupRec) kv => g.setField kv.1 kv.2) g

/-- `createGroup`: outbound-map the SCIM object and insert it with
`members` initialized to the empty list regardless of input. -/
def createGroup (store : Store) (groupObj : List (String × String)) : Except String Store :=
  let newGroup := endpointMapperOutbound configMapGroup groupObj
  let inserted := { GroupRec.applyData ⟨"", "", []⟩ newGroup with members := ([] : List String) }
  Except.ok { store with groups := store.groups ++ [inserted] }

/-- `deleteGroup`: look the group up by the outbound-mapped `{ id }`
predicate, throw `Group <id> not found` when absent, then delete the
matching document. -/
def deleteGroup (store : Store) (id : String) : Except String Store :=
  match findFirstGroup store.groups (groupUniqueFilter id) with
  | none => Except.error ("Group " ++ id ++ " not found")
  | some _ =>
    let remaining := store.groups.filter (fun g => !g.matchesWhere (groupUniqueFilter id))
    Except.ok { store with groups := remaining }

/-- The store update `modifyGroup` issues: the document matching the
outbound-mapped `{ id }` predicate gets the loop's final `newMembers`
as its `members`. -/
def updateGroupMembers (flt : List (String × String)) (newMembers : List String) (g : GroupRec) : GroupRec :=
  if g.matchesWhere flt then { g with members := newMembers } else g

/-- `modifyGroup`: look the group up by the outbound-mapped `{ id }`
predicate (throwing `Group <id> not found` when absent), run the
member-edit loop over `attrObj.members` — whose user-not-found error
message interpolates the *group* id variable — strip `id` from the
outbound-mapped update payload, and update the matching document with
the remaining fields and the final `newMembers`. Here `attrObj` carries
only its member edits; the claims never exercise other group fields in a
modify. -/
def modifyGroup (store : Store) (id : String) (edits : List MemberEdit) : Except String Store :=
  match findFirstGroup store.groups (groupUniqueFilter id) with
  | none => Except.error ("Group " ++ id ++ " not found")
  | some selectedGroup =>
    match applyMembershipEdits store.users selectedGroup.members edits with
    | none => Except.error ("User " ++ id ++ " not found")
    | some newMembers =>
      let updated := store.groups.map (updateGroupMembers (groupUniqueFilter id) newMembers)
      Except.ok { store with groups := updated }

/-- One of the eight resource operations, with its request payload. -/
inductive Operation where
  | opGetUsers (getObj : GetObj)
  | opCreateUser (userObj : List (String × String))
  | opModifyUser (id : String) (attrObj : List (String × String))
  | opDeleteUser (id : String)
  | opGetGroups (getObj : GetObj)
  | opCreateGroup (groupObj : List (String × String))
  | opModifyGroup (id : String) (edits : List MemberEdit)
  | opDeleteGroup (id : String)

/-- The store after an operation: reads leave it unchanged, writes
transform it as the corresponding plugin function does. -/
def applyOp (store : Store) : Operation → Except String Store
  | .opGetUsers getObj => (getUsers store getObj).map (fun _ => store)
  | .opCreateUser userObj => createUser store userObj
  | .opModifyUser id attrObj => modifyUser store id attrObj
  | .opDeleteUser id => deleteUser store id
  | .opGetGroups getObj => (getGroups store getObj).map (fun _ => store)
  | .opCreateGroup groupObj => createGroup store groupObj
  | .opModifyGroup id edits => modifyGroup store id edits
  | .opDeleteGroup id => deleteGroup store id

/-- A filter `getObj` whose shape the claims call unsupported for users:
any operator other than equality on `id`, `userName` or `externalId`, or
a raw filter. -/
def unsupportedUserFilter : GetObj → Bool
  | .filt attr operator _ _ => !(operator == "eq" && ["id", "userName", "externalId"].contains attr)
  | .raw _ => true
  | .noFilter => false

/-- A filter `getObj` whose shape the claims call unsupported for
groups: any operator other than equality on `id`, `displayName` or
`externalId`, or a raw filter. -/
def unsupportedGroupFilter : GetObj → Bool
  | .filt attr operator _ _ => !(operator == "eq" && ["id", "displayName", "externalId"].contains attr)
  | .raw _ => true
  | .noFilter => false

/-- A one-user, one-group store used to instantiate the theorems:
user `a` has internal id `ua` and is the sole member of group `g1`. -/
def demoStore : Store :=
  { users := [⟨"ua", "a"⟩], groups := [⟨"g1", "eng", ["ua"]⟩] }

/-- C1: the member-edit loop diverges from the specified fold. On the
group member list `["ua", "ub"]`, the edit sequence `delete a` then
`delete b` leaves `["ua"]` in the code — the second delete recomputes
from the original `selectedGroup.members` array, resurrecting the
already-deleted `ua` — whereas folding the edits over the working list,
as specified, leaves `[]`. -/
theorem applyMembershipEdits_delete_delete_diverges :
    applyMembershipEdits [⟨"ua", "a"⟩, ⟨"ub", "b"⟩] ["ua", "ub"]
      [⟨"a", "delete"⟩, ⟨"b", "delete"⟩] = some ["ua"]
    ∧ specApplyMembershipEdits [⟨"ua", "a"⟩, ⟨"ub", "b"⟩] ["ua", "ub"]
      [⟨"a", "delete"⟩, ⟨"b", "delete"⟩] = some [] :=
  ⟨rfl, rfl⟩

/-- C5, counterexample: an unsupported predicate (`ne` on `id`) handed to
`getGroups` is not rejected; the branch leaves the filter undefined and
the store is queried unrestricted, returning the whole collection. -/
theorem getGroups_unsupported_filter_not_rejected :
    getGroups demoStore (GetObj.filt "id" "ne" "x" "id ne x")
      = Except.ok [⟨"g1", "eng", [("ua", "a")]⟩] :=
  rfl

/-- When the mandatory if-else logic of `getUsers` throws, `getUsers`
propagates exactly that error, for every store. -/
theorem getUsers_of_filter_error {g : GetObj} {m : String}
    (h : getUsersFilter g = Except.error m) (store : Store) :
    getUsers store g = Except.error m := by
  rw [getUsers, h]
  rfl

/-- When no branch of `getGroups`' if-else logic assigns the filter, the
query runs unrestricted: one returned resource per stored group. -/
theorem getGroups_of_filter_undefined {g : GetObj}
    (h : getGroupsFilter g = none) (store : Store) :
    getGroups store g = Except.ok (store.groups.map (getGroupsRow store.users)) := by
  rw [getGroups, h]

/-- C5, as amended: `getUsers` rejects every unsupported filter shape
with an error that does not depend on the store (so the store is never
queried), while `getGroups` never rejects: an unsupported shape leaves
the predicate unset and the call returns one resource per stored group. -/
theorem unsupported_filter_rejection (g : GetObj) :
    (unsupportedUserFilter g = true →
      ∃ m, ∀ store : Store, getUsers store g = Except.error m)
    ∧ (unsupportedGroupFilter g = true →
      ∀ store : Store, ∃ l, getGroups store g = Except.ok l ∧ l.length = store.groups.length) := by
  constructor
  · intro hu
    cases g with
    | filt attr operator value rawFilter =>
      have hnotsupp : ¬(operator = "eq" ∧ (attr = "id" ∨ attr = "userName" ∨ attr = "externalId")) := by
        simp only [unsupportedUserFilter, Bool.not_eq_true', Bool.and_eq_false_iff] at hu
        rintro ⟨h1, h2⟩
        rcases hu with hu | hu
        · exact absurd h1 (by simpa using hu)
        · exact absurd h2 (by simpa using hu)
      by_cases hg : operator = "eq" ∧ attr = "group.value"
      · refine ⟨"getUsers error: not supporting groups member of user filtering: " ++ rawFilter,
          getUsers_of_filter_error ?_⟩
        rw [getUsersFilter]
        rw [if_neg (by simpa using hnotsupp), if_pos hg]
      · refine ⟨"getUsers error: not supporting simpel filtering: " ++ rawFilter,
          getUsers_of_filter_error ?_⟩
        rw [getUsersFilter]
        rw [if_neg (by simpa using hnotsupp), if_neg hg]
    | raw rawFilter =>
      exact ⟨"getUsers not error: supporting advanced filtering: " ++ rawFilter,
        getUsers_of_filter_error rfl⟩
    | noFilter => simp [unsupportedUserFilter] at hu
  · intro hg store
    refine ⟨store.groups.map (getGroupsRow store.users), ?_, by simp⟩
    refine getGroups_of_filter_undefined ?_ store
    cases g with
    | filt attr operator value rawFilter =>
      have hnotsupp : ¬(operator = "eq" ∧ (attr = "id" ∨ attr = "displayName" ∨ attr = "externalId")) := by
        simp only [unsupportedGroupFilter, Bool.not_eq_true', Bool.and_eq_false_iff] at hg
        rintro ⟨h1, h2⟩
        rcases hg with hg | hg
        · exact absurd h1 (by simpa using hg)
        · exact absurd h2 (by simpa using hg)
      rw [getGroupsFilter]
      rw [if_neg (by simpa using hnotsupp)]
    | raw rawFilter => rfl
    | noFilter => rfl

/-- C5, witness: the `ne` operator is rejected by `getUsers` for every
store and ignored by `getGroups`, which returns the whole collection. -/
theorem unsupported_filter_rejection_witness :
    (∃ m, ∀ store : Store, getUsers store (GetObj.filt "id" "ne" "x" "id ne x") = Except.error m)
    ∧ (∃ l, getGroups demoStore (GetObj.filt "id" "ne" "x" "id ne x") = Except.ok l
        ∧ l.length = demoStore.groups.length) :=
  ⟨(unsupported_filter_rejection (GetObj.filt "id" "ne" "x" "id ne x")).1 (by decide),
   (unsupported_filter_rejection (GetObj.filt "id" "ne" "x" "id ne x")).2 (by decide) demoStore⟩

/-- C6, counterexample: the `members.value eq ua` shape does not return
an empty result set — on `demoStore` it returns the full (non-empty)
group collection. -/
theorem getGroups_member_filter_not_empty :
    getGroups demoStore (GetObj.filt "members.value" "eq" "ua" "members.value eq ua")
      = Except.ok [⟨"g1", "eng", [("ua", "a")]⟩]
    ∧ ([⟨"g1", "eng", [("ua", "a")]⟩] : List ScimGroup) ≠ [] :=
  ⟨rfl, by decide⟩

/-- C6, as amended: the `members.value` equality shape is recognized but
its branch is empty, so the filter stays undefined: the call behaves
exactly like an unfiltered listing and returns one resource per stored
group; the requested member value is never used. -/
theorem getGroups_member_filter_ignores_value (store : Store) (v rawFilter : String) :
    getGroups store (GetObj.filt "members.value" "eq" v rawFilter)
      = Except.ok (store.groups.map (getGroupsRow store.users)) :=
  rfl

/-- C7, counterexample: for the supported group unique lookup the plugin
maps `{ id: value }` — not `{ displayName: value }` — through the group
map, and the two outbound mappings produce different predicates. -/
theorem getGroupsFilter_maps_id_not_displayName :
    getGroupsFilter (GetObj.filt "displayName" "eq" "eng" "displayName eq eng")
      = some (endpointMapperOutbound configMapGroup [("id", "eng")])
    ∧ endpointMapperOutbound configMapGroup [("id", "eng")]
      ≠ endpointMapperOutbound configMapGroup [("displayName", "eng")] :=
  ⟨rfl, by decide⟩

/-- C7, as amended: every supported unique equality lookup builds its
predicate through the Attribute Mapper's outbound path from
`{ userName: value }` for users, but from `{ id: value }` for groups. -/
theorem unique_lookup_predicates (attr value rawFilter : String) :
    (attr ∈ ["id", "userName", "externalId"] →
      getUsersFilter (GetObj.filt attr "eq" value rawFilter)
        = Except.ok (endpointMapperOutbound configMapUser [("userName", value)]))
    ∧ (attr ∈ ["id", "displayName", "externalId"] →
      getGroupsFilter (GetObj.filt attr "eq" value rawFilter)
        = some (endpointMapperOutbound configMapGroup [("id", value)])) := by
  constructor
  · intro h
    simp [getUsersFilter, h]
  · intro h
    simp [getGroupsFilter, h]

/-- C7, witness: the `externalId` lookup builds the `{ userName: value }`
predicate for users and the `{ id: value }` predicate for groups. -/
theorem unique_lookup_predicates_witness :
    getUsersFilter (GetObj.filt "externalId" "eq" "x" "externalId eq x")
      = Except.ok (endpointMapperOutbound configMapUser [("userName", "x")])
    ∧ getGroupsFilter (GetObj.filt "externalId" "eq" "x" "externalId eq x")
      = some (endpointMapperOutbound configMapGroup [("id", "x")]) :=
  ⟨(unique_lookup_predicates "externalId" "x" "externalId eq x").1 (by decide),
   (unique_lookup_predicates "externalId" "x" "externalId eq x").2 (by decide)⟩

/-- C8: a delete or modify whose primary identifier resolves to no
record fails with the not-found error before any mutation (the error is
produced by the existence check, so no updated store is ever built), and
the second-stage `P2025` store error of the two deletes is normalized to
the very same not-found message. -/
theorem missing_resource_rejected (store : Store) (id : String)
    (attrObj : List (String × String)) (edits : List MemberEdit) (msg : String) :
    (findFirstUser store.users (userUniqueFilter id) = none →
      deleteUser store id = Except.error ("User " ++ id ++ " not found")
      ∧ modifyUser store id attrObj = Except.error ("User " ++ id ++ " not found"))
    ∧ (findFirstGroup store.groups (groupUniqueFilter id) = none →
      deleteGroup store id = Except.error ("Group " ++ id ++ " not found")
      ∧ modifyGroup store id edits = Except.error ("Group " ++ id ++ " not found"))
    ∧ normalizeDeleteUserError id "P2025" msg = "User " ++ id ++ " not found"
    ∧ normalizeDeleteGroupError id "P2025" msg = "Group " ++ id ++ " not found" := by
  refine ⟨fun h => ⟨?_, ?_⟩, fun h => ⟨?_, ?_⟩, rfl, rfl⟩
  · simp [deleteUser, h]
  · simp [modifyUser, h]
  · simp [deleteGroup, h]
  · simp [modifyGroup, h]

/-- C8, witness: on the empty store, the four mutating operations all
report the not-found error for identifier `x`, and `P2025` normalizes to
the same messages. -/
theorem missing_resource_rejected_witness :
    (deleteUser ⟨[], []⟩ "x" = Except.error ("User " ++ "x" ++ " not found")
      ∧ modifyUser ⟨[], []⟩ "x" [] = Except.error ("User " ++ "x" ++ " not found"))
    ∧ (deleteGroup ⟨[], []⟩ "x" = Except.error ("Group " ++ "x" ++ " not found")
      ∧ modifyGroup ⟨[], []⟩ "x" [] = Except.error ("Group " ++ "x" ++ " not found"))
    ∧ normalizeDeleteUserError "x" "P2025" "boom" = "User " ++ "x" ++ " not found"
    ∧ normalizeDeleteGroupError "x" "P2025" "boom" = "Group " ++ "x" ++ " not found" :=
  ⟨(missing_resource_rejected ⟨[], []⟩ "x" [] [] "boom").1 rfl,
   (missing_resource_rejected ⟨[], []⟩ "x" [] [] "boom").2.1 rfl,
   (missing_resource_rejected ⟨[], []⟩ "x" [] [] "boom").2.2⟩

/-- C9: every user resource `getUsers` returns has had its `id`
overwritten with the `userName` value before being pushed, so the two
fields coincide in the response. -/
theorem getUsers_id_overwritten (store : Store) (getObj : GetObj)
    (l : List ScimUser) (h : getUsers store getObj = Except.ok l) :
    ∀ u ∈ l, u.id = u.userName := by
  cases hf : getUsersFilter getObj with
  | error m =>
    rw [getUsers_of_filter_error hf store] at h
    exact absurd h (by simp)
  | ok flt =>
    rw [getUsers, hf] at h
    simp only [bind, Except.bind, pure, Except.pure, Except.ok.injEq] at h
    subst h
    intro u hu
    rcases List.mem_map.mp hu with ⟨row, _, hrow⟩
    rw [← hrow]
    rfl

/-- C9, witness: on `demoStore` the unfiltered listing returns the user
with `id` equal to its `userName`. -/
theorem getUsers_id_overwritten_witness :
    (ScimUser.mk "a" "a" [("g1", "eng")]).id = (ScimUser.mk "a" "a" [("g1", "eng")]).userName :=
  getUsers_id_overwritten demoStore GetObj.noFilter
    [ScimUser.mk "a" "a" [("g1", "eng")]] rfl (ScimUser.mk "a" "a" [("g1", "eng")]) (by simp)

/-- `List.contains` agrees with membership over strings. -/
theorem contains_iff_mem {l : List String} {a : String} : l.contains a = true ↔ a ∈ l :=
  List.elem_iff

/-- C2: after a successful `deleteUser`, the deleted user's internal id
appears in no group's `members`, and the membership query `getUsers`
issues for it returns the empty sequence (under the sequential,
one-round-trip-at-a-time execution model). -/
theorem deleteUser_prunes_membership (store store' : Store) (id uid : String)
    (h : deleteUser store id = Except.ok store')
    (hu : (findFirstUser store.users (userUniqueFilter id)).map UserRec.id = some uid) :
    (∀ g ∈ store'.groups, uid ∉ g.members) ∧ listGroupsFor store'.groups uid = [] := by
  cases hf : findFirstUser store.users (userUniqueFilter id) with
  | none =>
    rw [deleteUser, hf] at h
    exact absurd h (by simp)
  | some user =>
    have huid : user.id = uid := by
      rw [hf] at hu
      simpa using hu
    simp only [deleteUser, hf, Except.ok.injEq] at h
    subst h
    have h1 : ∀ g ∈ store.groups.map (pruneGroup user.id), uid ∉ g.members := by
      intro g hg
      rcases List.mem_map.mp hg with ⟨g0, _, rfl⟩
      rw [pruneGroup]
      by_cases hc : g0.members.contains user.id = true
      · rw [if_pos hc]
        intro hmem
        have hp := (List.mem_filter.mp hmem).2
        rw [← huid] at hp
        simp at hp
      · rw [if_neg hc]
        intro hmem
        rw [← huid] at hmem
        exact hc (contains_iff_mem.mpr hmem)
    exact ⟨h1, by
      rw [listGroupsFor, List.filter_eq_nil_iff]
      intro g hg hcon
      exact h1 g hg (contains_iff_mem.mp hcon)⟩

/-- C2, witness: deleting user `a` from `demoStore` leaves a store in
which no group contains `ua` and the membership query for `ua` is empty. -/
theorem deleteUser_prunes_membership_witness :
    (∀ g ∈ (Store.mk [] [⟨"g1", "eng", []⟩]).groups, "ua" ∉ g.members)
    ∧ listGroupsFor (Store.mk [] [⟨"g1", "eng", []⟩]).groups "ua" = [] :=
  deleteUser_prunes_membership demoStore ⟨[], [⟨"g1", "eng", []⟩]⟩ "a" "ua" rfl rfl

/-- Replacing a group's `members` changes no field a `where` predicate
can read, so predicate evaluation is unaffected. -/
theorem matchesWhere_set_members (g : GroupRec) (M : List String) (flt : List (String × String)) :
    GroupRec.matchesWhere { g with members := M } flt = g.matchesWhere flt :=
  rfl

/-- `stepEdit` on an `"add"` edit whose value resolves: keep the state if
the working list already has the id, otherwise push (through the alias
while it lasts). -/
theorem stepEdit_add (users : List UserRec) (st : EditState) (u : String) (usr : UserRec)
    (hu : findFirstUser users (userUniqueFilter u) = some usr) :
    stepEdit users st ⟨u, "add"⟩ =
      (if st.cur.contains usr.id then some st
       else if st.aliased then some ⟨st.sel ++ [usr.id], st.cur ++ [usr.id], true⟩
       else some ⟨st.sel, st.cur ++ [usr.id], false⟩) := by
  simp [stepEdit, hu]

/-- The member-edit loop on a single `"add"` edit, in closed form. -/
theorem applyMembershipEdits_single_add (users : List UserRec) (m : List String) (u : String) (usr : UserRec)
    (hu : findFirstUser users (userUniqueFilter u) = some usr) :
    applyMembershipEdits users m [⟨u, "add"⟩]
      = (if m.contains usr.id then some m else some (m ++ [usr.id])) := by
  by_cases hc : (m.contains usr.id) = true
  · have hm : usr.id ∈ m := contains_iff_mem.mp hc
    simp [applyMembershipEdits, List.foldlM, stepEdit_add users _ u usr hu, hm]
  · have hm : usr.id ∉ m := fun hmm => hc (contains_iff_mem.mpr hmm)
    simp [applyMembershipEdits, List.foldlM, stepEdit_add users _ u usr hu, hm]

/-- `updateGroupMembers` changes no field a `where` predicate reads. -/
theorem matchesWhere_updateGroupMembers (flt : List (String × String)) (M : List String) (g : GroupRec) :
    GroupRec.matchesWhere (updateGroupMembers flt M g) flt = g.matchesWhere flt := by
  by_cases hmg : g.matchesWhere flt = true
  · have h1 : updateGroupMembers flt M g = { g with members := M } := by
      rw [updateGroupMembers, if_pos hmg]
    rw [h1, matchesWhere_set_members]
  · have h1 : updateGroupMembers flt M g = g := by
      rw [updateGroupMembers, if_neg hmg]
    rw [h1]

/-- `updateGroupMembers` is idempotent. -/
theorem updateGroupMembers_idem (flt : List (String × String)) (M : List String) (g : GroupRec) :
    updateGroupMembers flt M (updateGroupMembers flt M g) = updateGroupMembers flt M g := by
  by_cases hmg : g.matchesWhere flt = true
  · have h1 : updateGroupMembers flt M g = { g with members := M } := by
      rw [updateGroupMembers, if_pos hmg]
    rw [h1, updateGroupMembers, if_pos ((matchesWhere_set_members g M flt).trans hmg)]
  · have h1 : updateGroupMembers flt M g = g := by
      rw [updateGroupMembers, if_neg hmg]
    rw [h1, h1]

/-- C3: adding the same member twice through `modifyGroup` is a no-op
the second time — the second call finds the id already present, skips
the push (logging "relationship already exists"), and rewrites the store
to exactly the state the first call produced. -/
theorem modifyGroup_add_idempotent (store store1 : Store) (gid u : String)
    (h : modifyGroup store gid [⟨u, "add"⟩] = Except.ok store1) :
    modifyGroup store1 gid [⟨u, "add"⟩] = Except.ok store1 := by
  cases hg : findFirstGroup store.groups (groupUniqueFilter gid) with
  | none =>
    simp only [modifyGroup, hg] at h
    exact absurd h (by simp)
  | some sel =>
    simp only [modifyGroup, hg] at h
    cases he : applyMembershipEdits store.users sel.members [⟨u, "add"⟩] with
    | none =>
      rw [he] at h
      exact absurd h (by simp)
    | some M1 =>
      rw [he] at h
      simp only [Except.ok.injEq] at h
      subst h
      cases hu : findFirstUser store.users (userUniqueFilter u) with
      | none =>
        rw [applyMembershipEdits] at he
        rw [show (List.foldlM (stepEdit store.users) ⟨sel.members, sel.members, true⟩ [⟨u, "add"⟩])
            = (stepEdit store.users ⟨sel.members, sel.members, true⟩ ⟨u, "add"⟩ >>= fun st => pure st) from rfl] at he
        rw [stepEdit, hu] at he
        exact absurd he (by simp)
      | some usr =>
        rw [applyMembershipEdits_single_add store.users sel.members u usr hu] at he
        have hmemM1 : usr.id ∈ M1 := by
          by_cases hc : (sel.members.contains usr.id) = true
          · rw [if_pos hc] at he
            injection he with he
            subst he
            exact contains_iff_mem.mp hc
          · rw [if_neg hc] at he
            injection he with he
            subst he
            exact List.mem_append.mpr (Or.inr (List.mem_singleton.mpr rfl))
        have hfind1 : findFirstGroup
            (store.groups.map (updateGroupMembers (groupUniqueFilter gid) M1)) (groupUniqueFilter gid)
            = some (updateGroupMembers (groupUniqueFilter gid) M1 sel) := by
          rw [findFirstGroup, List.find?_map]
          have hcomp : ((fun g : GroupRec => g.matchesWhere (groupUniqueFilter gid))
                ∘ updateGroupMembers (groupUniqueFilter gid) M1)
              = fun g : GroupRec => g.matchesWhere (groupUniqueFilter gid) := by
            funext g
            exact matchesWhere_updateGroupMembers _ _ g
          rw [hcomp]
          rw [findFirstGroup] at hg
          rw [hg]
          rfl
        have hg2 : store.groups.find? (fun g => g.matchesWhere (groupUniqueFilter gid)) = some sel := hg
        have hmsel : sel.matchesWhere (groupUniqueFilter gid) = true := by
          simpa using List.find?_some hg2
        have hupd : updateGroupMembers (groupUniqueFilter gid) M1 sel = { sel with members := M1 } := by
          rw [updateGroupMembers, if_pos hmsel]
        have happly1 : applyMembershipEdits store.users M1 [⟨u, "add"⟩] = some M1 := by
          rw [applyMembershipEdits_single_add store.users M1 u usr hu]
          rw [if_pos (contains_iff_mem.mpr hmemM1)]
        have hmapid : (store.groups.map (updateGroupMembers (groupUniqueFilter gid) M1)).map
              (updateGroupMembers (groupUniqueFilter gid) M1)
            = store.groups.map (updateGroupMembers (groupUniqueFilter gid) M1) := by
          rw [List.map_map]
          refine List.map_congr_left ?_
          intro g _
          exact updateGroupMembers_idem _ _ g
        simp only [modifyGroup, hfind1, hupd, happly1, hmapid]

/-- C3, witness: adding `a` to the empty-membered group `g1` once and
then again reproduces the store of the first call. -/
theorem modifyGroup_add_idempotent_witness :
    modifyGroup ⟨[⟨"ua", "a"⟩], [⟨"g1", "eng", ["ua"]⟩]⟩ "g1" [⟨"a", "add"⟩]
      = Except.ok ⟨[⟨"ua", "a"⟩], [⟨"g1", "eng", ["ua"]⟩]⟩ :=
  modifyGroup_add_idempotent ⟨[⟨"ua", "a"⟩], [⟨"g1", "eng", []⟩]⟩
    ⟨[⟨"ua", "a"⟩], [⟨"g1", "eng", ["ua"]⟩]⟩ "g1" "a" (by rfl)

/-- Invariant carried through the member-edit loop: both the
`selectedGroup.members` array and the working `newMembers` list stay
duplicate-free, and while the alias lasts they are the same list. -/
def EditInv (st : EditState) : Prop :=
  st.sel.Nodup ∧ st.cur.Nodup ∧ (st.aliased = true → st.sel = st.cur)

/-- One edit preserves the loop invariant. -/
theorem stepEdit_inv {users : List UserRec} {st st' : EditState} {e : MemberEdit}
    (h : stepEdit users st e = some st') (hi : EditInv st) : EditInv st' := by
  cases hu : findFirstUser users (userUniqueFilter e.value) with
  | none =>
    simp only [stepEdit, hu] at h
    exact absurd h (by simp)
  | some usr =>
    simp only [stepEdit, hu] at h
    by_cases hdel : e.operation = "delete"
    · rw [if_pos hdel] at h
      injection h with h
      subst h
      exact ⟨hi.1, hi.1.filter _, fun hc => by simp at hc⟩
    · rw [if_neg hdel] at h
      by_cases hc : st.cur.contains usr.id = true
      · rw [if_pos hc] at h
        injection h with h
        subst h
        exact hi
      · rw [if_neg hc] at h
        have hnm : usr.id ∉ st.cur := fun hm => hc (contains_iff_mem.mpr hm)
        have hcur : (st.cur ++ [usr.id]).Nodup := by
          rw [List.nodup_append]
          refine ⟨hi.2.1, List.nodup_singleton _, ?_⟩
          intro a ha hb
          rw [List.mem_singleton] at hb
          subst hb
          exact hnm ha
        by_cases ha : st.aliased = true
        · rw [if_pos ha] at h
          injection h with h
          subst h
          have hsc := hi.2.2 ha
          exact ⟨by rw [hsc]; exact hcur, hcur, fun _ => by rw [hsc]⟩
        · rw [if_neg ha] at h
          injection h with h
          subst h
          exact ⟨hi.1, hcur, fun hc2 => by simp at hc2⟩

/-- The whole edit loop preserves the invariant. -/
theorem foldlM_stepEdit_inv (users : List UserRec) (edits : List MemberEdit) :
    ∀ st st' : EditState, List.foldlM (stepEdit users) st edits = some st' →
      EditInv st → EditInv st' := by
  induction edits with
  | nil =>
    intro st st' h hi
    simp only [List.foldlM] at h
    injection h with h
    subst h
    exact hi
  | cons e es ih =>
    intro st st' h hi
    rw [List.foldlM_cons] at h
    cases hs : stepEdit users st e with
    | none => rw [hs] at h; simp at h
    | some st1 =>
      rw [hs] at h
      exact ih st1 st' (by simpa using h) (stepEdit_inv hs hi)

/-- The member list the edit loop returns is duplicate-free whenever the
group's current list was. -/
theorem applyMembershipEdits_nodup {users : List UserRec} {m M : List String}
    {edits : List MemberEdit}
    (h : applyMembershipEdits users m edits = some M) (hm : m.Nodup) : M.Nodup := by
  rw [applyMembershipEdits] at h
  cases hf : List.foldlM (stepEdit users) ⟨m, m, true⟩ edits with
  | none => rw [hf] at h; simp at h
  | some st =>
    rw [hf] at h
    simp only [Option.map_some'] at h
    have hinv := foldlM_stepEdit_inv users edits ⟨m, m, true⟩ st hf ⟨hm, hm, fun _ => rfl⟩
    injection h with h
    subst h
    exact hinv.2.1

/-- C4: every one of the eight operations preserves the invariant that
each group's `members` list is duplicate-free — reads leave the store
unchanged, `createGroup` inserts an empty list, `deleteUser`'s prune
filters, and `modifyGroup`'s edit loop never pushes a present id. -/
theorem applyOp_preserves_members_nodup (store store' : Store) (op : Operation)
    (hnd : ∀ g ∈ store.groups, g.members.Nodup)
    (h : applyOp store op = Except.ok store') :
    ∀ g ∈ store'.groups, g.members.Nodup := by
  cases op with
  | opGetUsers getObj =>
    simp only [applyOp] at h
    cases hg : getUsers store getObj with
    | error m => rw [hg] at h; exact absurd h (by simp [Except.map])
    | ok l =>
      rw [hg] at h
      simp only [Except.map, Except.ok.injEq] at h
      subst h
      exact hnd
  | opGetGroups getObj =>
    simp only [applyOp] at h
    cases hg : getGroups store getObj with
    | error m => rw [hg] at h; exact absurd h (by simp [Except.map])
    | ok l =>
      rw [hg] at h
      simp only [Except.map, Except.ok.injEq] at h
      subst h
      exact hnd
  | opCreateUser userObj =>
    simp only [applyOp, createUser, Except.ok.injEq] at h
    subst h
    exact hnd
  | opModifyUser id attrObj =>
    simp only [applyOp, modifyUser] at h
    cases hf : findFirstUser store.users (userUniqueFilter id) with
    | none => rw [hf] at h; exact absurd h (by simp)
    | some user =>
      rw [hf] at h
      simp only [Except.ok.injEq] at h
      subst h
      exact hnd
  | opDeleteUser id =>
    simp only [applyOp, deleteUser] at h
    cases hf : findFirstUser store.users (userUniqueFilter id) with
    | none => rw [hf] at h; exact absurd h (by simp)
    | some user =>
      rw [hf] at h
      simp only [Except.ok.injEq] at h
      subst h
      intro g hg
      rcases List.mem_map.mp hg with ⟨g0, hg0, rfl⟩
      rw [pruneGroup]
      by_cases hc : g0.members.contains user.id = true
      · rw [if_pos hc]
        exact (hnd g0 hg0).filter _
      · rw [if_neg hc]
        exact hnd g0 hg0
  | opCreateGroup groupObj =>
    simp only [applyOp, createGroup, Except.ok.injEq] at h
    subst h
    intro g hg
    rcases List.mem_append.mp hg with hg | hg
    · exact hnd g hg
    · rw [List.mem_singleton] at hg
      subst hg
      exact List.nodup_nil
  | opModifyGroup id edits =>
    cases hg1 : findFirstGroup store.groups (groupUniqueFilter id) with
    | none =>
      simp only [applyOp, modifyGroup, hg1] at h
      exact absurd h (by simp)
    | some sel =>
      simp only [applyOp, modifyGroup, hg1] at h
      cases he : applyMembershipEdits store.users sel.members edits with
      | none => rw [he] at h; exact absurd h (by simp)
      | some M =>
        rw [he] at h
        simp only [Except.ok.injEq] at h
        subst h
        have hg2 : store.groups.find? (fun g => g.matchesWhere (groupUniqueFilter id)) = some sel := hg1
        have hM : M.Nodup :=
          applyMembershipEdits_nodup he (hnd sel (List.mem_of_find?_eq_some hg2))
        intro g hg
        rcases List.mem_map.mp hg with ⟨g0, hg0, rfl⟩
        rw [updateGroupMembers]
        by_cases hc : g0.matchesWhere (groupUniqueFilter id) = true
        · rw [if_pos hc]
          exact hM
        · rw [if_neg hc]
          exact hnd g0 hg0
  | opDeleteGroup id =>
    simp only [applyOp, deleteGroup] at h
    cases hf : findFirstGroup store.groups (groupUniqueFilter id) with
    | none => rw [hf] at h; exact absurd h (by simp)
    | some grp =>
      rw [hf] at h
      simp only [Except.ok.injEq] at h
      subst h
      intro g hg
      exact hnd g (List.mem_filter.mp hg).1

/-- C4, witness: deleting user `a` from `demoStore` (whose group lists
are duplicate-free) leaves every group's member list duplicate-free. -/
theorem applyOp_preserves_members_nodup_witness :
    (GroupRec.mk "g1" "eng" []).members.Nodup :=
  applyOp_preserves_members_nodup demoStore ⟨[], [⟨"g1", "eng", []⟩]⟩
    (Operation.opDeleteUser "a") (by decide) (by rfl) (GroupRec.mk "g1" "eng" []) (by simp)

/-- Counting occurrences in the resolved-member values: when user ids
are pairwise distinct, each id in the queried `members` list that
references an existing user contributes exactly one value, and every
other id contributes none. -/
theorem count_resolved_members (ms : List String) (m : String) :
    ∀ users : List UserRec, (users.map UserRec.id).Nodup →
      ((users.filter (fun u => ms.contains u.id)).map UserRec.id).count m
        = if m ∈ ms ∧ m ∈ users.map UserRec.id then 1 else 0 := by
  intro users
  induction users with
  | nil =>
    intro _
    simp
  | cons u us ih =>
    intro hn
    rw [List.map_cons, List.nodup_cons] at hn
    by_cases hc : (ms.contains u.id) = true
    · rw [@List.filter_cons_of_pos UserRec (fun v => ms.contains v.id) u us hc,
        List.map_cons, List.count_cons]
      by_cases hm : m = u.id
      · rw [hm]
        rw [hm] at ih
        have h0 : ((us.filter (fun v => ms.contains v.id)).map UserRec.id).count u.id = 0 := by
          rw [ih hn.2, if_neg]
          rintro ⟨_, hcon⟩
          exact hn.1 hcon
        rw [h0]
        simp [contains_iff_mem.mp hc]
      · rw [ih hn.2]
        have hbeq : (u.id == m) = false := by
          rw [beq_eq_false_iff_ne]
          exact fun hcon => hm hcon.symm
        rw [hbeq]
        simp only [Bool.false_eq_true, if_false, Nat.add_zero]
        have hmem : (m ∈ ms ∧ m ∈ (u.id :: us.map UserRec.id))
            ↔ (m ∈ ms ∧ m ∈ us.map UserRec.id) := by
          constructor
          · rintro ⟨h1, h2⟩
            rcases List.mem_cons.mp h2 with h2 | h2
            · exact absurd h2 hm
            · exact ⟨h1, h2⟩
          · rintro ⟨h1, h2⟩
            exact ⟨h1, List.mem_cons_of_mem _ h2⟩
        rw [List.map_cons]
        by_cases hcond : m ∈ ms ∧ m ∈ us.map UserRec.id
        · rw [if_pos hcond, if_pos (hmem.mpr hcond)]
        · rw [if_neg hcond, if_neg (fun hcon => hcond (hmem.mp hcon))]
    · rw [@List.filter_cons_of_neg UserRec (fun v => ms.contains v.id) u us hc,
        ih hn.2, List.map_cons]
      by_cases hm : m = u.id
      · rw [hm]
        have hnotms : u.id ∉ ms := fun hcon => hc (contains_iff_mem.mpr hcon)
        rw [if_neg (fun hcon => hnotms hcon.1), if_neg (fun hcon => hnotms hcon.1)]
      · have hmem : (m ∈ ms ∧ m ∈ (u.id :: us.map UserRec.id))
            ↔ (m ∈ ms ∧ m ∈ us.map UserRec.id) := by
          constructor
          · rintro ⟨h1, h2⟩
            rcases List.mem_cons.mp h2 with h2 | h2
            · exact absurd h2 hm
            · exact ⟨h1, h2⟩
          · rintro ⟨h1, h2⟩
            exact ⟨h1, List.mem_cons_of_mem _ h2⟩
        by_cases hcond : m ∈ ms ∧ m ∈ us.map UserRec.id
        · rw [if_pos hcond, if_pos (hmem.mpr hcond)]
        · rw [if_neg hcond, if_neg (fun hcon => hcond (hmem.mp hcon))]

/-- C10: every group resource `getGroups` returns resolves its stored
row's `members` into `(value, display)` pairs: exactly one pair per
stored member id that references an existing user (assuming distinct
user ids), and none for a dangling id — which is silently omitted, never
an error. -/
theorem getGroups_members_resolved (store : Store) (getObj : GetObj)
    (l : List ScimGroup) (sg : ScimGroup)
    (h : getGroups store getObj = Except.ok l) (hsg : sg ∈ l)
    (hn : (store.users.map UserRec.id).Nodup) :
    ∃ row ∈ store.groups, ∀ m : String,
      (sg.members.map Prod.fst).count m
        = if m ∈ row.members ∧ m ∈ store.users.map UserRec.id then 1 else 0 := by
  simp only [getGroups, Except.ok.injEq] at h
  subst h
  rcases List.mem_map.mp hsg with ⟨row, hrow, rfl⟩
  have hrow' : row ∈ store.groups := by
    cases hfo : getGroupsFilter getObj with
    | some flt =>
      rw [hfo] at hrow
      exact (List.mem_filter.mp hrow).1
    | none =>
      rw [hfo] at hrow
      exact hrow
  refine ⟨row, hrow', fun m => ?_⟩
  have hmap : (getGroupsRow store.users row).members.map Prod.fst
      = (store.users.filter (fun u => row.members.contains u.id)).map UserRec.id := by
    rw [getGroupsRow, List.map_map]
    rfl
  rw [hmap, count_resolved_members row.members m store.users hn]

/-- C10, witness: on a store whose group holds one resolvable member
`ua` and one dangling id `ghost`, the returned group carries exactly the
pair for `ua`. -/
theorem getGroups_members_resolved_witness :
    ∃ row ∈ (Store.mk [⟨"ua", "a"⟩] [⟨"g1", "eng", ["ua", "ghost"]⟩]).groups,
      ∀ m : String,
        ((ScimGroup.mk "g1" "eng" [("ua", "a")]).members.map Prod.fst).count m
          = if m ∈ row.members ∧
              m ∈ (Store.mk [⟨"ua", "a"⟩] [⟨"g1", "eng", ["ua", "ghost"]⟩]).users.map UserRec.id
            then 1 else 0 :=
  getGroups_members_resolved ⟨[⟨"ua", "a"⟩], [⟨"g1", "eng", ["ua", "ghost"]⟩]⟩
    GetObj.noFilter [⟨"g1", "eng", [("ua", "a")]⟩] ⟨"g1", "eng", [("ua", "a")]⟩
    (by rfl) (by simp) (by decide)

end Scim
